import Mathlib

/-!
Shallow embedding of `src/experiment3.py`: three UCB bandit policies
(`known_variance_ucb`, `unknown_variance_ucb`, `standard_ucb`), the
problem-instance generation, and the mean/std aggregation step.

Modelling conventions:
* floating point arithmetic is modelled over `ℝ`; `np.inf` becomes `⊤` in
  `WithTop ℝ`;
* the single `np.random.normal` draw of round `t` (`t = 1..T`) is supplied
  by an oracle `rewards : ℕ → ℝ` (the policies never see the distribution,
  only the drawn values, so this captures every possible random stream);
* `np.argmax` (first occurrence of the maximal value) is embedded by its
  documented semantics; on an empty array NumPy raises, which the
  `Except`-valued variant used by instance generation mirrors;
* pull counts, stored as floats in the source but only ever incremented by
  one and compared to zero, are modelled as `ℕ`.
-/

namespace Experiment3

open Classical in
/-- `np.argmax` on a nonempty list: index of the first occurrence of the
maximal value.  (On `[]` NumPy raises; this total model returns the junk
value `0` there, and every theorem below uses it only on nonempty lists.) -/
noncomputable def npArgmax {α : Type} [LinearOrder α] (l : List α) : ℕ :=
  l.findIdx fun v => decide (∀ w ∈ l, w ≤ v)

/-- `np.argmax` as NumPy behaves on an empty array: an error
(`ValueError: attempt to get argmax of an empty sequence`). -/
noncomputable def npArgmaxE {α : Type} [LinearOrder α] (l : List α) :
    Except String ℕ :=
  match l with
  | [] => .error "attempt to get argmax of an empty sequence"
  | _ => .ok (npArgmax l)

/-- The horizon constant `T = 1000000` of the source file. -/
def T0 : ℕ := 1000000

/-- The trial-count constant `N_EXPERIMENTS = 50` of the source file. -/
def N0 : ℕ := 50

/-- Shared mutable state of `known_variance_ucb` and `standard_ucb`:
`counts`, `emp_means` and the running cumulative regret value. -/
structure BasicState where
  counts : ℕ → ℕ
  emp_means : ℕ → ℝ
  regret : ℝ

/-- Per-arm statistics of `unknown_variance_ucb`: pull count, empirical
mean, Welford accumulator `M2`, empirical variance. -/
structure ArmStat where
  count : ℕ
  mean : ℝ
  M2 : ℝ
  var : ℝ

/-- State of `unknown_variance_ucb`. -/
structure UnknownState where
  counts : ℕ → ℕ
  emp_means : ℕ → ℝ
  emp_vars : ℕ → ℝ
  M2 : ℕ → ℝ
  regret : ℝ

/-- The per-arm statistics of an `UnknownState`. -/
def armProj (s : UnknownState) (a : ℕ) : ArmStat :=
  ⟨s.counts a, s.emp_means a, s.M2 a, s.emp_vars a⟩

/-- The UCB index list of `known_variance_ucb` (source line 34):
`np.inf if counts[a] == 0 else emp_means[a] + sqrt((4*variances[a]*log(T))/counts[a])`. -/
noncomputable def knownUcbList (K T : ℕ) (variances : ℕ → ℝ)
    (s : BasicState) : List (WithTop ℝ) :=
  (List.range K).map fun a =>
    if s.counts a = 0 then ⊤
    else ((s.emp_means a +
      Real.sqrt ((4 * variances a * Real.log T) / (s.counts a)) : ℝ) : WithTop ℝ)

/-- One round of `known_variance_ucb` (source lines 34-39), with the round's
Gaussian draw supplied as `reward`. -/
noncomputable def knownStep (K T : ℕ) (means variances : ℕ → ℝ)
    (best_arm : ℕ) (s : BasicState) (reward : ℝ) : BasicState :=
  let arm := npArgmax (knownUcbList K T variances s)
  let counts := Function.update s.counts arm (s.counts arm + 1)
  let emp_means := Function.update s.emp_means arm
    (s.emp_means arm + (reward - s.emp_means arm) / (counts arm))
  ⟨counts, emp_means, s.regret + (means best_arm - means arm)⟩

/-- State of `known_variance_ucb` after `t` rounds (round `t` consumes
`rewards t`, for `t = 1..T`). -/
noncomputable def knownRun (K T : ℕ) (means variances : ℕ → ℝ)
    (best_arm : ℕ) (rewards : ℕ → ℝ) : ℕ → BasicState
  | 0 => ⟨fun _ => 0, fun _ => 0, 0⟩
  | t + 1 => knownStep K T means variances best_arm
      (knownRun K T means variances best_arm rewards t) (rewards (t + 1))

/-- The arm pulled by `known_variance_ucb` in round `t + 1`. -/
noncomputable def knownArm (K T : ℕ) (means variances : ℕ → ℝ)
    (best_arm : ℕ) (rewards : ℕ → ℝ) (t : ℕ) : ℕ :=
  npArgmax (knownUcbList K T variances
    (knownRun K T means variances best_arm rewards t))

/-- The regret array returned by `known_variance_ucb`: entries `0..T`. -/
noncomputable def knownRegretTrace (K T : ℕ) (means variances : ℕ → ℝ)
    (best_arm : ℕ) (rewards : ℕ → ℝ) : List ℝ :=
  (List.range (T + 1)).map fun t =>
    (knownRun K T means variances best_arm rewards t).regret

/-- The UCB index list of `standard_ucb` (source line 75):
`np.inf if counts[a] == 0 else emp_means[a] + sqrt((4*log(T))/counts[a])`.
It does not read the true or estimated variances at all. -/
noncomputable def stdUcbList (K T : ℕ) (s : BasicState) : List (WithTop ℝ) :=
  (List.range K).map fun a =>
    if s.counts a = 0 then ⊤
    else ((s.emp_means a +
      Real.sqrt ((4 * Real.log T) / (s.counts a)) : ℝ) : WithTop ℝ)

/-- One round of `standard_ucb` (source lines 75-80).  The `variances`
parameter of the source function feeds only the random draw, which is the
oracle `reward` here, so it is absent. -/
noncomputable def stdStep (K T : ℕ) (means : ℕ → ℝ)
    (best_arm : ℕ) (s : BasicState) (reward : ℝ) : BasicState :=
  let arm := npArgmax (stdUcbList K T s)
  let counts := Function.update s.counts arm (s.counts arm + 1)
  let emp_means := Function.update s.emp_means arm
    (s.emp_means arm + (reward - s.emp_means arm) / (counts arm))
  ⟨counts, emp_means, s.regret + (means best_arm - means arm)⟩

/-- State of `standard_ucb` after `t` rounds. -/
noncomputable def stdRun (K T : ℕ) (means : ℕ → ℝ)
    (best_arm : ℕ) (rewards : ℕ → ℝ) : ℕ → BasicState
  | 0 => ⟨fun _ => 0, fun _ => 0, 0⟩
  | t + 1 => stdStep K T means best_arm
      (stdRun K T means best_arm rewards t) (rewards (t + 1))

/-- The arm pulled by `standard_ucb` in round `t + 1`. -/
noncomputable def stdArm (K T : ℕ) (means : ℕ → ℝ)
    (best_arm : ℕ) (rewards : ℕ → ℝ) (t : ℕ) : ℕ :=
  npArgmax (stdUcbList K T (stdRun K T means best_arm rewards t))

/-- The regret array returned by `standard_ucb`: entries `0..T`. -/
noncomputable def stdRegretTrace (K T : ℕ) (means : ℕ → ℝ)
    (best_arm : ℕ) (rewards : ℕ → ℝ) : List ℝ :=
  (List.range (T + 1)).map fun t =>
    (stdRun K T means best_arm rewards t).regret

/-- The numeric floor `1e-6` of the correction factor (source line 55). -/
noncomputable def epsFloor : ℝ := 1 / 10 ^ 6

/-- The UCB index list of `unknown_variance_ucb` (source lines 49-57):
for a pulled arm, `correction = max(1 - 2*sqrt((2*log(T))/n), 1e-6)` and
`ucb = emp_means[a] + sqrt(emp_vars[a]) * sqrt((4*log(T))/(n*correction))`. -/
noncomputable def unknownUcbList (K T : ℕ) (s : UnknownState) :
    List (WithTop ℝ) :=
  (List.range K).map fun a =>
    if s.counts a = 0 then ⊤
    else
      ((s.emp_means a + Real.sqrt (s.emp_vars a) *
        Real.sqrt ((4 * Real.log T) /
          ((s.counts a) * max (1 - 2 * Real.sqrt ((2 * Real.log T) / (s.counts a)))
            epsFloor)) : ℝ) : WithTop ℝ)

/-- The Welford update applied to the chosen arm's statistics by
`unknown_variance_ucb` (source lines 60-66): post-increment the count,
`delta = reward - emp_means`, incremental mean update,
`M2 += delta * (reward - new mean)`, and `emp_vars = M2 / (n - 1)` when
`n > 1` (unchanged otherwise). -/
noncomputable def armUpdate (s : ArmStat) (reward : ℝ) : ArmStat :=
  let n := s.count + 1
  let delta := reward - s.mean
  let newMean := s.mean + delta / n
  let newM2 := s.M2 + delta * (reward - newMean)
  ⟨n, newMean, newM2, if 1 < n then newM2 / ((n : ℝ) - 1) else s.var⟩

/-- The initial per-arm statistics of `unknown_variance_ucb` (source lines
43-47): zero count, zero mean, zero `M2`, unit variance prior. -/
def armInit : ArmStat := ⟨0, 0, 0, 1⟩

/-- One round of `unknown_variance_ucb` (source lines 49-67). -/
noncomputable def unknownStep (K T : ℕ) (means : ℕ → ℝ)
    (best_arm : ℕ) (s : UnknownState) (reward : ℝ) : UnknownState :=
  let arm := npArgmax (unknownUcbList K T s)
  let upd := armUpdate (armProj s arm) reward
  ⟨Function.update s.counts arm upd.count,
   Function.update s.emp_means arm upd.mean,
   Function.update s.emp_vars arm upd.var,
   Function.update s.M2 arm upd.M2,
   s.regret + (means best_arm - means arm)⟩

/-- State of `unknown_variance_ucb` after `t` rounds. -/
noncomputable def unknownRun (K T : ℕ) (means : ℕ → ℝ)
    (best_arm : ℕ) (rewards : ℕ → ℝ) : ℕ → UnknownState
  | 0 => ⟨fun _ => 0, fun _ => 0, fun _ => 1, fun _ => 0, 0⟩
  | t + 1 => unknownStep K T means best_arm
      (unknownRun K T means best_arm rewards t) (rewards (t + 1))

/-- The arm pulled by `unknown_variance_ucb` in round `t + 1`. -/
noncomputable def unknownArm (K T : ℕ) (means : ℕ → ℝ)
    (best_arm : ℕ) (rewards : ℕ → ℝ) (t : ℕ) : ℕ :=
  npArgmax (unknownUcbList K T (unknownRun K T means best_arm rewards t))

/-- The regret array returned by `unknown_variance_ucb`: entries `0..T`. -/
noncomputable def unknownRegretTrace (K T : ℕ) (means : ℕ → ℝ)
    (best_arm : ℕ) (rewards : ℕ → ℝ) : List ℝ :=
  (List.range (T + 1)).map fun t =>
    (unknownRun K T means best_arm rewards t).regret

/-- The rewards credited to arm `a` during the first `t` rounds of
`unknown_variance_ucb`, in order. -/
noncomputable def armRewards (K T : ℕ) (means : ℕ → ℝ)
    (best_arm : ℕ) (rewards : ℕ → ℝ) : ℕ → ℕ → List ℝ
  | 0, _ => []
  | t + 1, a =>
    armRewards K T means best_arm rewards t a ++
      if unknownArm K T means best_arm rewards t = a then [rewards (t + 1)] else []

/-- Spec-side definition: the mean of a list of reals (used only to state
what "sample variance" means; the code never stores the raw list). -/
noncomputable def listMean (rs : List ℝ) : ℝ := rs.sum / rs.length

/-- Spec-side definition: the unbiased sample variance of a list of reals,
`Σ (r - mean)² / (n - 1)` (meaningful for `n ≥ 2`).  This is the
refinement target the online Welford estimate is compared against. -/
noncomputable def sampleVariance (rs : List ℝ) : ℝ :=
  ((rs.map fun r => (r - listMean rs) ^ 2).sum) / ((rs.length : ℝ) - 1)

/-- The variance-level table (source lines 21-25). -/
def varianceLevels (var : String) : Option (ℝ × ℝ) :=
  if var = "low" then some (1, 5)
  else if var = "medium" then some (5, 20)
  else if var = "high" then some (20, 50)
  else none

/-- Argparse (source lines 8-11): `--K` is parsed as an arbitrary integer
with no positivity check; `--var` must be one of the three choices, else the
parser rejects the invocation before anything else runs. -/
def parseArgs (K : ℤ) (var : String) : Except String (ℤ × ℝ × ℝ) :=
  match varianceLevels var with
  | none => .error "argument --var: invalid choice"
  | some (vmin, vmax) => .ok (K, vmin, vmax)

/-- Problem-instance generation (source lines 87-89): draw `K` means and
`K` variances (uniform draws supplied by the oracles `meansDraw`,
`varsDraw`; `range(K)` of a non-positive `K` is empty) and compute
`best_arm = np.argmax(means)`, which raises on an empty list. -/
noncomputable def generateInstance (K : ℤ) (meansDraw varsDraw : ℕ → ℝ) :
    Except String (List ℝ × List ℝ × ℕ) := do
  let means := (List.range K.toNat).map meansDraw
  let variances := (List.range K.toNat).map varsDraw
  let best_arm ← npArgmaxE means
  return (means, variances, best_arm)

/-- The program pipeline around the core (source lines 8-11, 85-111):
parse the arguments, generate the instance, then run `N_EXPERIMENTS`
trials of each policy.  Per-trial reward streams are supplied by oracles.
Any error aborts before the later stages produce anything. -/
noncomputable def runProgram (K : ℤ) (var : String)
    (meansDraw varsDraw : ℕ → ℝ) (rewardsK rewardsU rewardsS : ℕ → ℕ → ℝ) :
    Except String
      ((List ℝ × List ℝ × ℕ) × List (List ℝ) × List (List ℝ) × List (List ℝ)) := do
  let _args ← parseArgs K var
  let inst ← generateInstance K meansDraw varsDraw
  let means := fun a => inst.1.getD a 0
  let variances := fun a => inst.2.1.getD a 0
  let best_arm := inst.2.2
  let known := (List.range N0).map fun i =>
    knownRegretTrace K.toNat T0 means variances best_arm (rewardsK i)
  let unknown := (List.range N0).map fun i =>
    unknownRegretTrace K.toNat T0 means best_arm (rewardsU i)
  let std := (List.range N0).map fun i =>
    stdRegretTrace K.toNat T0 means best_arm (rewardsS i)
  return (inst, known, unknown, std)

/-- Pointwise mean over `N` trials at round index `j`
(source lines 115-120, `np.mean(..., axis=0)`). -/
noncomputable def aggMean (N : ℕ) (traces : ℕ → ℕ → ℝ) (j : ℕ) : ℝ :=
  (∑ i ∈ Finset.range N, traces i j) / N

/-- Pointwise population standard deviation over `N` trials at round index
`j` (source lines 115-120, `np.std(..., axis=0)`, default `ddof = 0`). -/
noncomputable def aggStd (N : ℕ) (traces : ℕ → ℕ → ℝ) (j : ℕ) : ℝ :=
  Real.sqrt ((∑ i ∈ Finset.range N, (traces i j - aggMean N traces j) ^ 2) / N)

/-! ### Generic helper lemmas -/

lemma exists_argmax_pred {α : Type} [LinearOrder α] (l : List α) (hl : l ≠ []) :
    ∃ x ∈ l, ∀ w ∈ l, w ≤ x := by
  induction l with
  | nil => exact absurd rfl hl
  | cons v vs ih =>
    rcases eq_or_ne vs [] with h | h
    · subst h
      exact ⟨v, List.mem_singleton.mpr rfl, by
        intro w hw
        rw [List.mem_singleton] at hw
        exact le_of_eq hw⟩
    · obtain ⟨x, hx, hmax⟩ := ih h
      rcases le_total v x with hvx | hxv
      · exact ⟨x, List.mem_cons_of_mem _ hx, by
          intro w hw
          rcases List.mem_cons.mp hw with rfl | hw
          · exact hvx
          · exact hmax w hw⟩
      · exact ⟨v, List.mem_cons_self _ _, by
          intro w hw
          rcases List.mem_cons.mp hw with rfl | hw
          · exact le_rfl
          · exact le_trans (hmax w hw) hxv⟩

open Classical in
lemma npArgmax_lt_length {α : Type} [LinearOrder α] (l : List α) (hl : l ≠ []) :
    npArgmax l < l.length := by
  obtain ⟨x, hx, hmax⟩ := exists_argmax_pred l hl
  exact List.findIdx_lt_length_of_exists ⟨x, hx, decide_eq_true hmax⟩

open Classical in
lemma npArgmax_is_max {α : Type} [LinearOrder α] (l : List α) (hl : l ≠ [])
    (d : α) : ∀ j, j < l.length → l.getD j d ≤ l.getD (npArgmax l) d := by
  intro j hj
  have ha := npArgmax_lt_length l hl
  have hp : (fun v => decide (∀ w ∈ l, w ≤ v)) (l.get ⟨npArgmax l, ha⟩) = true := by
    have := @List.findIdx_getElem _ (fun v => decide (∀ w ∈ l, w ≤ v)) l ha
    simpa [List.get_eq_getElem] using this
  have hmax : ∀ w ∈ l, w ≤ l.get ⟨npArgmax l, ha⟩ := of_decide_eq_true hp
  rw [List.getD_eq_getElem l d hj, List.getD_eq_getElem l d ha]
  exact hmax _ (List.getElem_mem hj)

open Classical in
lemma npArgmax_first {α : Type} [LinearOrder α] (l : List α) (hl : l ≠ [])
    (d : α) : ∀ j, j < npArgmax l → l.getD j d < l.getD (npArgmax l) d := by
  intro j hj
  have ha := npArgmax_lt_length l hl
  have hjl : j < l.length := lt_trans hj ha
  have hnp : decide (∀ w ∈ l, w ≤ l[j]) = false :=
    List.not_of_lt_findIdx hj
  have hnot : ¬ (∀ w ∈ l, w ≤ l[j]) := of_decide_eq_false hnp
  push_neg at hnot
  obtain ⟨w, hw, hwgt⟩ := hnot
  have hle : w ≤ l.getD (npArgmax l) d := by
    obtain ⟨i, hi, rfl⟩ := List.getElem_of_mem hw
    have := npArgmax_is_max l hl d i hi
    rwa [List.getD_eq_getElem l d hi] at this
  rw [List.getD_eq_getElem l d hjl]
  exact lt_of_lt_of_le hwgt hle

/-- If position `j` holds `⊤` and every earlier position does not, then the
first-maximum argmax picks `j`. -/
lemma npArgmax_first_top (l : List (WithTop ℝ)) (j : ℕ) (d : WithTop ℝ)
    (hj : j < l.length)
    (htop : l.getD j d = ⊤) (hbef : ∀ i, i < j → l.getD i d ≠ ⊤) :
    npArgmax l = j := by
  have hl : l ≠ [] := List.ne_nil_of_length_pos (by omega)
  have ha := npArgmax_lt_length l hl
  have hmaxtop : l.getD (npArgmax l) d = ⊤ :=
    top_le_iff.mp (htop ▸ npArgmax_is_max l hl d j hj)
  rcases lt_trichotomy (npArgmax l) j with h | h | h
  · exact absurd hmaxtop (hbef _ h)
  · exact h
  · have hlt := npArgmax_first l hl d j h
    rw [htop, hmaxtop] at hlt
    exact absurd hlt (lt_irrefl _)

lemma getD_range_map {β : Type} (K a : ℕ) (f : ℕ → β) (d : β) (ha : a < K) :
    ((List.range K).map f).getD a d = f a := by
  rw [List.getD_eq_getElem _ d (by simpa using ha)]
  simp

/-! ### Per-policy basic lemmas -/

section Policies

variable (K T : ℕ) (means variances : ℕ → ℝ) (best_arm : ℕ) (rewards : ℕ → ℝ)

lemma knownUcbList_length (s : BasicState) :
    (knownUcbList K T variances s).length = K := by
  simp [knownUcbList]

lemma stdUcbList_length (s : BasicState) :
    (stdUcbList K T s).length = K := by
  simp [stdUcbList]

lemma unknownUcbList_length (s : UnknownState) :
    (unknownUcbList K T s).length = K := by
  simp [unknownUcbList]

lemma knownArm_lt (hK : 1 ≤ K) (t : ℕ) :
    knownArm K T means variances best_arm rewards t < K := by
  have hne : knownUcbList K T variances
      (knownRun K T means variances best_arm rewards t) ≠ [] := by
    apply List.ne_nil_of_length_pos
    rw [knownUcbList_length]
    omega
  have h := npArgmax_lt_length _ hne
  rwa [knownUcbList_length] at h

lemma stdArm_lt (hK : 1 ≤ K) (t : ℕ) :
    stdArm K T means best_arm rewards t < K := by
  have hne : stdUcbList K T (stdRun K T means best_arm rewards t) ≠ [] := by
    apply List.ne_nil_of_length_pos
    rw [stdUcbList_length]
    omega
  have h := npArgmax_lt_length _ hne
  rwa [stdUcbList_length] at h

lemma unknownArm_lt (hK : 1 ≤ K) (t : ℕ) :
    unknownArm K T means best_arm rewards t < K := by
  have hne : unknownUcbList K T (unknownRun K T means best_arm rewards t) ≠ [] := by
    apply List.ne_nil_of_length_pos
    rw [unknownUcbList_length]
    omega
  have h := npArgmax_lt_length _ hne
  rwa [unknownUcbList_length] at h

lemma knownRun_regret_succ (t : ℕ) :
    (knownRun K T means variances best_arm rewards (t + 1)).regret =
      (knownRun K T means variances best_arm rewards t).regret +
        (means best_arm - means (knownArm K T means variances best_arm rewards t)) :=
  rfl

lemma stdRun_regret_succ (t : ℕ) :
    (stdRun K T means best_arm rewards (t + 1)).regret =
      (stdRun K T means best_arm rewards t).regret +
        (means best_arm - means (stdArm K T means best_arm rewards t)) :=
  rfl

lemma unknownRun_regret_succ (t : ℕ) :
    (unknownRun K T means best_arm rewards (t + 1)).regret =
      (unknownRun K T means best_arm rewards t).regret +
        (means best_arm - means (unknownArm K T means best_arm rewards t)) :=
  rfl

lemma knownRun_regret_le_succ (hK : 1 ≤ K)
    (hbest : ∀ a, a < K → means a ≤ means best_arm) (t : ℕ) :
    (knownRun K T means variances best_arm rewards t).regret ≤
      (knownRun K T means variances best_arm rewards (t + 1)).regret := by
  rw [knownRun_regret_succ]
  have h := hbest _ (knownArm_lt K T means variances best_arm rewards hK t)
  linarith

lemma stdRun_regret_le_succ (hK : 1 ≤ K)
    (hbest : ∀ a, a < K → means a ≤ means best_arm) (t : ℕ) :
    (stdRun K T means best_arm rewards t).regret ≤
      (stdRun K T means best_arm rewards (t + 1)).regret := by
  rw [stdRun_regret_succ]
  have h := hbest _ (stdArm_lt K T means best_arm rewards hK t)
  linarith

lemma unknownRun_regret_le_succ (hK : 1 ≤ K)
    (hbest : ∀ a, a < K → means a ≤ means best_arm) (t : ℕ) :
    (unknownRun K T means best_arm rewards t).regret ≤
      (unknownRun K T means best_arm rewards (t + 1)).regret := by
  rw [unknownRun_regret_succ]
  have h := hbest _ (unknownArm_lt K T means best_arm rewards hK t)
  linarith

lemma knownRun_regret_nonneg (hK : 1 ≤ K)
    (hbest : ∀ a, a < K → means a ≤ means best_arm) (t : ℕ) :
    0 ≤ (knownRun K T means variances best_arm rewards t).regret := by
  induction t with
  | zero => exact le_rfl
  | succ t ih =>
    exact le_trans ih
      (knownRun_regret_le_succ K T means variances best_arm rewards hK hbest t)

lemma stdRun_regret_nonneg (hK : 1 ≤ K)
    (hbest : ∀ a, a < K → means a ≤ means best_arm) (t : ℕ) :
    0 ≤ (stdRun K T means best_arm rewards t).regret := by
  induction t with
  | zero => exact le_rfl
  | succ t ih =>
    exact le_trans ih
      (stdRun_regret_le_succ K T means best_arm rewards hK hbest t)

lemma unknownRun_regret_nonneg (hK : 1 ≤ K)
    (hbest : ∀ a, a < K → means a ≤ means best_arm) (t : ℕ) :
    0 ≤ (unknownRun K T means best_arm rewards t).regret := by
  induction t with
  | zero => exact le_rfl
  | succ t ih =>
    exact le_trans ih
      (unknownRun_regret_le_succ K T means best_arm rewards hK hbest t)

lemma knownUcbList_one (s : BasicState) :
    knownUcbList K T (fun _ => 1) s = stdUcbList K T s := by
  unfold knownUcbList stdUcbList
  apply List.map_congr_left
  intro a _
  by_cases h : s.counts a = 0
  · simp [h]
  · simp only [h, if_neg, if_false]
    norm_num

lemma knownStep_one (s : BasicState) (reward : ℝ) :
    knownStep K T means (fun _ => 1) best_arm s reward =
      stdStep K T means best_arm s reward := by
  unfold knownStep stdStep
  rw [knownUcbList_one]

lemma knownRun_one (t : ℕ) :
    knownRun K T means (fun _ => 1) best_arm rewards t =
      stdRun K T means best_arm rewards t := by
  induction t with
  | zero => rfl
  | succ t ih =>
    show knownStep K T means (fun _ => 1) best_arm
        (knownRun K T means (fun _ => 1) best_arm rewards t) (rewards (t + 1)) = _
    rw [ih, knownStep_one]
    rfl

lemma argmax_count_indicator {K t : ℕ} (counts : ℕ → ℕ) (g : ℕ → ℝ)
    (ht : t < K) (hc : ∀ a, counts a = if a < t then 1 else 0) :
    npArgmax ((List.range K).map fun a =>
      if counts a = 0 then (⊤ : WithTop ℝ) else ((g a : ℝ) : WithTop ℝ)) = t := by
  apply npArgmax_first_top _ t ⊤
  · simpa using ht
  · rw [getD_range_map _ _ _ _ ht, hc t]
    simp
  · intro i hi
    rw [getD_range_map _ _ _ _ (lt_trans hi ht), hc i, if_pos hi]
    simp

lemma stdRun_counts_succ (t : ℕ) :
    (stdRun K T means best_arm rewards (t + 1)).counts =
      Function.update (stdRun K T means best_arm rewards t).counts
        (stdArm K T means best_arm rewards t)
        ((stdRun K T means best_arm rewards t).counts
          (stdArm K T means best_arm rewards t) + 1) := rfl

lemma knownRun_counts_succ (t : ℕ) :
    (knownRun K T means variances best_arm rewards (t + 1)).counts =
      Function.update (knownRun K T means variances best_arm rewards t).counts
        (knownArm K T means variances best_arm rewards t)
        ((knownRun K T means variances best_arm rewards t).counts
          (knownArm K T means variances best_arm rewards t) + 1) := rfl

lemma unknownRun_counts_succ (t : ℕ) :
    (unknownRun K T means best_arm rewards (t + 1)).counts =
      Function.update (unknownRun K T means best_arm rewards t).counts
        (unknownArm K T means best_arm rewards t)
        ((unknownRun K T means best_arm rewards t).counts
          (unknownArm K T means best_arm rewards t) + 1) := rfl

lemma std_bootstrap (hK : 1 ≤ K) :
    ∀ t, t ≤ K →
      ∀ a, (stdRun K T means best_arm rewards t).counts a =
        if a < t then 1 else 0 := by
  intro t
  induction t with
  | zero => intro _ a; simp [stdRun]
  | succ t ih =>
    intro ht a
    have iht := ih (by omega)
    have harm : stdArm K T means best_arm rewards t = t := by
      unfold stdArm stdUcbList
      exact argmax_count_indicator _ _ (by omega) iht
    rw [stdRun_counts_succ, harm, Function.update_apply]
    by_cases hat : a = t
    · subst hat
      rw [if_pos rfl, iht a]
      simp
    · rw [if_neg hat, iht a]
      split_ifs <;> omega

lemma std_bootstrap_arm (hK : 1 ≤ K) (t : ℕ) (ht : t < K) :
    stdArm K T means best_arm rewards t = t := by
  unfold stdArm stdUcbList
  exact argmax_count_indicator _ _ ht
    (std_bootstrap K T means best_arm rewards hK t (by omega))

lemma known_bootstrap (hK : 1 ≤ K) :
    ∀ t, t ≤ K →
      ∀ a, (knownRun K T means variances best_arm rewards t).counts a =
        if a < t then 1 else 0 := by
  intro t
  induction t with
  | zero => intro _ a; simp [knownRun]
  | succ t ih =>
    intro ht a
    have iht := ih (by omega)
    have harm : knownArm K T means variances best_arm rewards t = t := by
      unfold knownArm knownUcbList
      exact argmax_count_indicator _ _ (by omega) iht
    rw [knownRun_counts_succ, harm, Function.update_apply]
    by_cases hat : a = t
    · subst hat
      rw [if_pos rfl, iht a]
      simp
    · rw [if_neg hat, iht a]
      split_ifs <;> omega

lemma known_bootstrap_arm (hK : 1 ≤ K) (t : ℕ) (ht : t < K) :
    knownArm K T means variances best_arm rewards t = t := by
  unfold knownArm knownUcbList
  exact argmax_count_indicator _ _ ht
    (known_bootstrap K T means variances best_arm rewards hK t (by omega))

lemma unknown_bootstrap (hK : 1 ≤ K) :
    ∀ t, t ≤ K →
      ∀ a, (unknownRun K T means best_arm rewards t).counts a =
        if a < t then 1 else 0 := by
  intro t
  induction t with
  | zero => intro _ a; simp [unknownRun]
  | succ t ih =>
    intro ht a
    have iht := ih (by omega)
    have harm : unknownArm K T means best_arm rewards t = t := by
      unfold unknownArm unknownUcbList
      exact argmax_count_indicator _ _ (by omega) iht
    rw [unknownRun_counts_succ, harm, Function.update_apply]
    by_cases hat : a = t
    · subst hat
      rw [if_pos rfl, iht a]
      simp
    · rw [if_neg hat, iht a]
      split_ifs <;> omega

lemma unknown_bootstrap_arm (hK : 1 ≤ K) (t : ℕ) (ht : t < K) :
    unknownArm K T means best_arm rewards t = t := by
  unfold unknownArm unknownUcbList
  exact argmax_count_indicator _ _ ht
    (unknown_bootstrap K T means best_arm rewards hK t (by omega))

end Policies

lemma stdRun_regret_of_arms_eq (K T : ℕ) (means : ℕ → ℝ) (best_arm : ℕ)
    (rw1 rw2 : ℕ → ℝ)
    (h : ∀ t, t < T → stdArm K T means best_arm rw1 t =
      stdArm K T means best_arm rw2 t) :
    ∀ t, t ≤ T → (stdRun K T means best_arm rw1 t).regret =
      (stdRun K T means best_arm rw2 t).regret := by
  intro t
  induction t with
  | zero => intro _; rfl
  | succ t ih =>
    intro ht
    rw [stdRun_regret_succ, stdRun_regret_succ, ih (by omega), h t (by omega)]

lemma knownRun_regret_of_arms_eq (K T : ℕ) (means variances : ℕ → ℝ)
    (best_arm : ℕ) (rw1 rw2 : ℕ → ℝ)
    (h : ∀ t, t < T → knownArm K T means variances best_arm rw1 t =
      knownArm K T means variances best_arm rw2 t) :
    ∀ t, t ≤ T → (knownRun K T means variances best_arm rw1 t).regret =
      (knownRun K T means variances best_arm rw2 t).regret := by
  intro t
  induction t with
  | zero => intro _; rfl
  | succ t ih =>
    intro ht
    rw [knownRun_regret_succ, knownRun_regret_succ, ih (by omega), h t (by omega)]

lemma unknownRun_regret_of_arms_eq (K T : ℕ) (means : ℕ → ℝ) (best_arm : ℕ)
    (rw1 rw2 : ℕ → ℝ)
    (h : ∀ t, t < T → unknownArm K T means best_arm rw1 t =
      unknownArm K T means best_arm rw2 t) :
    ∀ t, t ≤ T → (unknownRun K T means best_arm rw1 t).regret =
      (unknownRun K T means best_arm rw2 t).regret := by
  intro t
  induction t with
  | zero => intro _; rfl
  | succ t ih =>
    intro ht
    rw [unknownRun_regret_succ, unknownRun_regret_succ, ih (by omega),
      h t (by omega)]

/-! ### Welford lemmas -/

lemma foldl_armUpdate_count (rs : List ℝ) : ∀ s : ArmStat,
    (rs.foldl armUpdate s).count = s.count + rs.length := by
  induction rs with
  | nil => intro s; simp
  | cons r rs ih =>
    intro s
    rw [List.foldl_cons, ih]
    have h : (armUpdate s r).count = s.count + 1 := rfl
    rw [h, List.length_cons]
    omega

lemma welford_mean_M2 (rs : List ℝ) (hne : rs ≠ []) :
    (rs.foldl armUpdate armInit).mean = rs.sum / rs.length ∧
    (rs.foldl armUpdate armInit).M2 =
      (rs.map fun r => r ^ 2).sum - rs.length * (rs.sum / rs.length) ^ 2 := by
  induction rs using List.reverseRecOn with
  | nil => exact absurd rfl hne
  | append_singleton l r ih =>
    rw [List.foldl_append, List.foldl_cons, List.foldl_nil]
    rcases eq_or_ne l [] with hl | hl
    · subst hl
      constructor
      · show armInit.mean + (r - armInit.mean) / ((armInit.count + 1 : ℕ) : ℝ) = _
        simp [armInit]
      · show armInit.M2 + (r - armInit.mean) *
            (r - (armInit.mean + (r - armInit.mean) / ((armInit.count + 1 : ℕ) : ℝ))) = _
        simp [armInit]
    · obtain ⟨hmean, hM2⟩ := ih hl
      have hcount : (l.foldl armUpdate armInit).count = l.length := by
        rw [foldl_armUpdate_count]
        simp [armInit]
      have hlpos : 0 < l.length := List.length_pos.mpr hl
      have hlen : (l.length : ℝ) ≠ 0 := Nat.cast_ne_zero.mpr (by omega)
      have hlen1 : (l.length : ℝ) + 1 ≠ 0 := by positivity
      have hmean2 :
          (armUpdate (l.foldl armUpdate armInit) r).mean =
            (l.sum + r) / ((l.length : ℝ) + 1) := by
        show (l.foldl armUpdate armInit).mean +
            (r - (l.foldl armUpdate armInit).mean) /
              (((l.foldl armUpdate armInit).count + 1 : ℕ) : ℝ) = _
        rw [hmean, hcount]
        push_cast
        field_simp
        ring
      constructor
      · rw [hmean2]
        simp only [List.sum_append, List.length_append, List.sum_singleton,
          List.length_singleton]
        push_cast
        ring
      · have hM2new :
            (armUpdate (l.foldl armUpdate armInit) r).M2 =
              (l.foldl armUpdate armInit).M2 +
                (r - (l.foldl armUpdate armInit).mean) *
                  (r - (armUpdate (l.foldl armUpdate armInit) r).mean) := rfl
        rw [hM2new, hmean2, hM2, hmean]
        simp only [List.map_append, List.sum_append, List.length_append,
          List.map_cons, List.map_nil, List.sum_cons, List.sum_nil,
          List.length_singleton]
        push_cast
        field_simp
        ring

lemma sum_sq_dev (rs : List ℝ) (c : ℝ) :
    (rs.map fun r => (r - c) ^ 2).sum =
      (rs.map fun r => r ^ 2).sum - 2 * c * rs.sum + rs.length * c ^ 2 := by
  induction rs with
  | nil => simp
  | cons r rs ih =>
    simp only [List.map_cons, List.sum_cons, List.length_cons, ih]
    push_cast
    ring

lemma welford_M2_centered (rs : List ℝ) (hne : rs ≠ []) :
    (rs.foldl armUpdate armInit).M2 =
      (rs.map fun r => (r - listMean rs) ^ 2).sum := by
  have h := (welford_mean_M2 rs hne).2
  have hlen : (rs.length : ℝ) ≠ 0 :=
    Nat.cast_ne_zero.mpr (by
      have := List.length_pos.mpr hne
      omega)
  rw [h, sum_sq_dev]
  unfold listMean
  field_simp
  ring

lemma foldl_armUpdate_var (rs : List ℝ) :
    (rs.foldl armUpdate armInit).var =
      if rs.length ≤ 1 then 1
      else (rs.foldl armUpdate armInit).M2 / ((rs.length : ℝ) - 1) := by
  induction rs using List.reverseRecOn with
  | nil => simp [armInit]
  | append_singleton l r ih =>
    rw [List.foldl_append, List.foldl_cons, List.foldl_nil]
    have hcount : (l.foldl armUpdate armInit).count = l.length := by
      rw [foldl_armUpdate_count]
      simp [armInit]
    have hvar : (armUpdate (l.foldl armUpdate armInit) r).var =
        if 1 < (l.foldl armUpdate armInit).count + 1
        then (armUpdate (l.foldl armUpdate armInit) r).M2 /
          ((((l.foldl armUpdate armInit).count + 1 : ℕ) : ℝ) - 1)
        else (l.foldl armUpdate armInit).var := rfl
    have hlen : (l ++ [r]).length = l.length + 1 := by simp
    rcases Nat.eq_zero_or_pos l.length with h0 | hpos
    · have hl : l = [] := List.length_eq_zero.mp h0
      subst hl
      simp only [List.nil_append]
      show (armUpdate armInit r).var = _
      simp [armUpdate, armInit]
    · rw [hvar, hcount, if_pos (by omega), hlen, if_neg (by omega)]

lemma armProj_step (K T : ℕ) (means : ℕ → ℝ) (best_arm : ℕ)
    (s : UnknownState) (r : ℝ) (a : ℕ) :
    armProj (unknownStep K T means best_arm s r) a =
      if npArgmax (unknownUcbList K T s) = a
      then armUpdate (armProj s a) r
      else armProj s a := by
  by_cases h : npArgmax (unknownUcbList K T s) = a
  · rw [if_pos h]
    simp only [unknownStep, armProj, h, Function.update_same]
  · rw [if_neg h]
    have ha : a ≠ npArgmax (unknownUcbList K T s) := fun e => h e.symm
    simp only [unknownStep, armProj, Function.update_noteq ha]

lemma armProj_run_succ (K T : ℕ) (means : ℕ → ℝ) (best_arm : ℕ)
    (rewards : ℕ → ℝ) (t a : ℕ) :
    armProj (unknownRun K T means best_arm rewards (t + 1)) a =
      if unknownArm K T means best_arm rewards t = a
      then armUpdate (armProj (unknownRun K T means best_arm rewards t) a)
        (rewards (t + 1))
      else armProj (unknownRun K T means best_arm rewards t) a :=
  armProj_step K T means best_arm (unknownRun K T means best_arm rewards t)
    (rewards (t + 1)) a

lemma armProj_run (K T : ℕ) (means : ℕ → ℝ) (best_arm : ℕ)
    (rewards : ℕ → ℝ) (a : ℕ) : ∀ t,
    armProj (unknownRun K T means best_arm rewards t) a =
      (armRewards K T means best_arm rewards t a).foldl armUpdate armInit := by
  intro t
  induction t with
  | zero => rfl
  | succ t ih =>
    rw [armProj_run_succ]
    have harw : armRewards K T means best_arm rewards (t + 1) a =
        armRewards K T means best_arm rewards t a ++
          (if unknownArm K T means best_arm rewards t = a
            then [rewards (t + 1)] else []) := rfl
    rw [harw, List.foldl_append]
    by_cases h : unknownArm K T means best_arm rewards t = a
    · rw [if_pos h, if_pos h, ih, List.foldl_cons, List.foldl_nil]
    · rw [if_neg h, if_neg h, ih, List.foldl_nil]

lemma unknown_counts_eq_armRewards_length (K T : ℕ) (means : ℕ → ℝ)
    (best_arm : ℕ) (rewards : ℕ → ℝ) (t a : ℕ) :
    (unknownRun K T means best_arm rewards t).counts a =
      (armRewards K T means best_arm rewards t a).length := by
  have h := congrArg ArmStat.count (armProj_run K T means best_arm rewards a t)
  simpa [armProj, foldl_armUpdate_count, armInit] using h

lemma armUpdate_var_def (s : ArmStat) (r : ℝ) :
    (armUpdate s r).var =
      if 1 < s.count + 1
      then (armUpdate s r).M2 / (((s.count + 1 : ℕ) : ℝ) - 1)
      else s.var := rfl

lemma armUpdate_M2_increment (s : ArmStat) (r : ℝ) :
    (armUpdate s r).M2 =
      s.M2 + (r - s.mean) ^ 2 * (1 - 1 / ((s.count + 1 : ℕ) : ℝ)) := by
  show s.M2 + (r - s.mean) *
      (r - (s.mean + (r - s.mean) / ((s.count + 1 : ℕ) : ℝ))) = _
  push_cast
  ring

lemma armUpdate_increment_nonneg (s : ArmStat) (r : ℝ) :
    0 ≤ (r - s.mean) ^ 2 * (1 - 1 / ((s.count + 1 : ℕ) : ℝ)) := by
  apply mul_nonneg (sq_nonneg _)
  have h0 : (0:ℝ) < ((s.count + 1 : ℕ) : ℝ) :=
    Nat.cast_pos.mpr (by omega)
  have h1 : (1:ℝ) ≤ ((s.count + 1 : ℕ) : ℝ) :=
    Nat.one_le_cast.mpr (by omega)
  have h2 : 1 / ((s.count + 1 : ℕ) : ℝ) ≤ 1 := by
    rw [div_le_one h0]
    exact h1
  linarith

lemma unknown_M2_vars_nonneg (K T : ℕ) (means : ℕ → ℝ) (best_arm : ℕ)
    (rewards : ℕ → ℝ) (a : ℕ) : ∀ t,
    0 ≤ (unknownRun K T means best_arm rewards t).M2 a ∧
    0 ≤ (unknownRun K T means best_arm rewards t).emp_vars a := by
  intro t
  induction t with
  | zero =>
    constructor
    · exact le_rfl
    · norm_num [unknownRun]
  | succ t ih =>
    have hstep := armProj_run_succ K T means best_arm rewards t a
    have hM2old : (armProj (unknownRun K T means best_arm rewards t) a).M2 =
        (unknownRun K T means best_arm rewards t).M2 a := rfl
    have hvarold : (armProj (unknownRun K T means best_arm rewards t) a).var =
        (unknownRun K T means best_arm rewards t).emp_vars a := rfl
    have hM2new : (unknownRun K T means best_arm rewards (t + 1)).M2 a =
        (armProj (unknownRun K T means best_arm rewards (t + 1)) a).M2 := rfl
    have hvarnew : (unknownRun K T means best_arm rewards (t + 1)).emp_vars a =
        (armProj (unknownRun K T means best_arm rewards (t + 1)) a).var := rfl
    by_cases h : unknownArm K T means best_arm rewards t = a
    · rw [if_pos h] at hstep
      rw [hstep] at hM2new hvarnew
      have hinc := armUpdate_increment_nonneg
        (armProj (unknownRun K T means best_arm rewards t) a) (rewards (t + 1))
      constructor
      · rw [hM2new, armUpdate_M2_increment, hM2old]
        linarith [ih.1]
      · rw [hvarnew, armUpdate_var_def]
        by_cases hc : 1 <
            (armProj (unknownRun K T means best_arm rewards t) a).count + 1
        · rw [if_pos hc]
          apply div_nonneg
          · rw [armUpdate_M2_increment, hM2old]
            linarith [ih.1]
          · have hcast : (0:ℝ) ≤
                (((armProj (unknownRun K T means best_arm rewards t) a).count :
                  ℕ) : ℝ) := Nat.cast_nonneg _
            push_cast
            linarith
        · rw [if_neg hc, hvarold]
          exact ih.2
    · rw [if_neg h] at hstep
      rw [hstep] at hM2new hvarnew
      rw [hM2new, hvarnew, hM2old, hvarold]
      exact ih

/-! ### Claim theorems -/

/-- Claim C1: for each of the three policy functions, for every `K ≥ 1`,
every means/variances sequences with `best_arm` an index of maximal mean,
and every reward stream, the returned regret trace has length `T + 1`,
starts at `0`, is monotone non-decreasing, and hence non-negative. -/
theorem regretTrace_shape_monotone (K T : ℕ) (means variances : ℕ → ℝ)
    (best_arm : ℕ) (rewards : ℕ → ℝ) (hK : 1 ≤ K) (hb : best_arm < K)
    (hbest : ∀ a, a < K → means a ≤ means best_arm) :
    ((knownRegretTrace K T means variances best_arm rewards).length = T + 1 ∧
     (knownRegretTrace K T means variances best_arm rewards).getD 0 0 = 0 ∧
     (∀ t, 1 ≤ t → t ≤ T →
       (knownRegretTrace K T means variances best_arm rewards).getD (t - 1) 0 ≤
         (knownRegretTrace K T means variances best_arm rewards).getD t 0) ∧
     (∀ t, t ≤ T →
       0 ≤ (knownRegretTrace K T means variances best_arm rewards).getD t 0)) ∧
    ((unknownRegretTrace K T means best_arm rewards).length = T + 1 ∧
     (unknownRegretTrace K T means best_arm rewards).getD 0 0 = 0 ∧
     (∀ t, 1 ≤ t → t ≤ T →
       (unknownRegretTrace K T means best_arm rewards).getD (t - 1) 0 ≤
         (unknownRegretTrace K T means best_arm rewards).getD t 0) ∧
     (∀ t, t ≤ T →
       0 ≤ (unknownRegretTrace K T means best_arm rewards).getD t 0)) ∧
    ((stdRegretTrace K T means best_arm rewards).length = T + 1 ∧
     (stdRegretTrace K T means best_arm rewards).getD 0 0 = 0 ∧
     (∀ t, 1 ≤ t → t ≤ T →
       (stdRegretTrace K T means best_arm rewards).getD (t - 1) 0 ≤
         (stdRegretTrace K T means best_arm rewards).getD t 0) ∧
     (∀ t, t ≤ T →
       0 ≤ (stdRegretTrace K T means best_arm rewards).getD t 0)) := by
  refine ⟨⟨?_, ?_, ?_, ?_⟩, ⟨?_, ?_, ?_, ?_⟩, ⟨?_, ?_, ?_, ?_⟩⟩
  · simp [knownRegretTrace]
  · unfold knownRegretTrace
    rw [getD_range_map _ _ _ _ (by omega)]
    rfl
  · intro t h1 ht
    obtain ⟨u, rfl⟩ : ∃ u, t = u + 1 := ⟨t - 1, by omega⟩
    unfold knownRegretTrace
    rw [getD_range_map _ _ _ _ (by omega : u + 1 - 1 < T + 1),
      getD_range_map _ _ _ _ (by omega : u + 1 < T + 1)]
    simpa using
      knownRun_regret_le_succ K T means variances best_arm rewards hK hbest u
  · intro t ht
    unfold knownRegretTrace
    rw [getD_range_map _ _ _ _ (by omega : t < T + 1)]
    exact knownRun_regret_nonneg K T means variances best_arm rewards hK hbest t
  · simp [unknownRegretTrace]
  · unfold unknownRegretTrace
    rw [getD_range_map _ _ _ _ (by omega)]
    rfl
  · intro t h1 ht
    obtain ⟨u, rfl⟩ : ∃ u, t = u + 1 := ⟨t - 1, by omega⟩
    unfold unknownRegretTrace
    rw [getD_range_map _ _ _ _ (by omega : u + 1 - 1 < T + 1),
      getD_range_map _ _ _ _ (by omega : u + 1 < T + 1)]
    simpa using
      unknownRun_regret_le_succ K T means best_arm rewards hK hbest u
  · intro t ht
    unfold unknownRegretTrace
    rw [getD_range_map _ _ _ _ (by omega : t < T + 1)]
    exact unknownRun_regret_nonneg K T means best_arm rewards hK hbest t
  · simp [stdRegretTrace]
  · unfold stdRegretTrace
    rw [getD_range_map _ _ _ _ (by omega)]
    rfl
  · intro t h1 ht
    obtain ⟨u, rfl⟩ : ∃ u, t = u + 1 := ⟨t - 1, by omega⟩
    unfold stdRegretTrace
    rw [getD_range_map _ _ _ _ (by omega : u + 1 - 1 < T + 1),
      getD_range_map _ _ _ _ (by omega : u + 1 < T + 1)]
    simpa using
      stdRun_regret_le_succ K T means best_arm rewards hK hbest u
  · intro t ht
    unfold stdRegretTrace
    rw [getD_range_map _ _ _ _ (by omega : t < T + 1)]
    exact stdRun_regret_nonneg K T means best_arm rewards hK hbest t

/-- Witness for C1 at `K = 1`, `T = 1`, constant-zero means. -/
theorem regretTrace_shape_monotone_witness :
    (knownRegretTrace 1 1 (fun _ => 0) (fun _ => 1) 0 (fun _ => 0)).length = 1 + 1 :=
  (regretTrace_shape_monotone 1 1 (fun _ => 0) (fun _ => 1) 0 (fun _ => 0)
    (by norm_num) (by norm_num) (fun _ _ => le_rfl)).1.1

/-- Claim C3: in `unknown_variance_ucb`, the index of a pulled arm
(`n = counts[a] ≥ 1`) equals
`emp_means[a] + sqrt(emp_vars[a]) * sqrt(4*ln T / (n * c))` with
`c = max(1 - 2*sqrt(2*ln T / n), 1e-6)`; the floor keeps `c ≥ 1e-6 > 0`,
so the denominator `n * c` is strictly positive and no error is raised. -/
theorem unknown_index_formula_correction_floor (K T : ℕ) (s : UnknownState)
    (a : ℕ) (ha : a < K) (hn : s.counts a ≠ 0) :
    (unknownUcbList K T s).getD a ⊤ =
      ((s.emp_means a + Real.sqrt (s.emp_vars a) *
        Real.sqrt ((4 * Real.log T) /
          ((s.counts a) *
            max (1 - 2 * Real.sqrt ((2 * Real.log T) / (s.counts a)))
              epsFloor)) : ℝ) : WithTop ℝ) ∧
    epsFloor ≤
      max (1 - 2 * Real.sqrt ((2 * Real.log T) / (s.counts a))) epsFloor ∧
    0 < epsFloor ∧
    0 < (s.counts a : ℝ) *
      max (1 - 2 * Real.sqrt ((2 * Real.log T) / (s.counts a))) epsFloor := by
  refine ⟨?_, le_max_right _ _, ?_, ?_⟩
  · unfold unknownUcbList
    rw [getD_range_map _ _ _ _ ha, if_neg hn]
  · norm_num [epsFloor]
  · apply mul_pos
    · exact_mod_cast Nat.pos_of_ne_zero hn
    · exact lt_of_lt_of_le (by norm_num [epsFloor]) (le_max_right _ _)

/-- Witness for C3 at a concrete one-armed state with one pull. -/
theorem unknown_index_formula_correction_floor_witness : 0 < epsFloor :=
  (unknown_index_formula_correction_floor 1 2
    ⟨fun _ => 1, fun _ => 0, fun _ => 1, fun _ => 0, 0⟩ 0
    (by norm_num) (by norm_num)).2.2.1

/-- Claim C8: the aggregation step is the pointwise mean / population
standard deviation across the `N` regret traces at every round index; for
`N = 1` the mean trace equals the single trace and the standard-deviation
trace is identically zero. -/
theorem aggregate_pointwise_single_trial (traces : ℕ → ℕ → ℝ) (j : ℕ) :
    aggMean 1 traces j = traces 0 j ∧
    aggStd 1 traces j = 0 ∧
    (∀ N, aggMean N traces j = (∑ i ∈ Finset.range N, traces i j) / N) ∧
    (∀ N, aggStd N traces j =
      Real.sqrt
        ((∑ i ∈ Finset.range N, (traces i j - aggMean N traces j) ^ 2) / N)) := by
  refine ⟨?_, ?_, fun _ => rfl, fun _ => rfl⟩
  · simp [aggMean]
  · simp [aggStd, aggMean]

/-- Claim C4: in `standard_ucb`, at every round an unpulled arm gets index
`+∞`, a pulled arm gets `emp_means[a] + sqrt(4*ln T / counts[a])` — a
formula reading neither the true nor any estimated variance — and the
selected arm is the first-maximum argmax of the index list: it is in range,
its index is maximal, and every earlier position has a strictly smaller
index. -/
theorem standard_index_stable_argmax (K T : ℕ) (means : ℕ → ℝ)
    (best_arm : ℕ) (rewards : ℕ → ℝ) (hK : 1 ≤ K) (t : ℕ) :
    (∀ a, a < K → (stdRun K T means best_arm rewards t).counts a = 0 →
      (stdUcbList K T (stdRun K T means best_arm rewards t)).getD a ⊤ = ⊤) ∧
    (∀ a, a < K → (stdRun K T means best_arm rewards t).counts a ≠ 0 →
      (stdUcbList K T (stdRun K T means best_arm rewards t)).getD a ⊤ =
        (((stdRun K T means best_arm rewards t).emp_means a +
          Real.sqrt ((4 * Real.log T) /
            ((stdRun K T means best_arm rewards t).counts a)) : ℝ) : WithTop ℝ)) ∧
    (stdArm K T means best_arm rewards t =
      npArgmax (stdUcbList K T (stdRun K T means best_arm rewards t))) ∧
    stdArm K T means best_arm rewards t < K ∧
    (∀ j, j < K →
      (stdUcbList K T (stdRun K T means best_arm rewards t)).getD j ⊤ ≤
        (stdUcbList K T (stdRun K T means best_arm rewards t)).getD
          (stdArm K T means best_arm rewards t) ⊤) ∧
    (∀ j, j < stdArm K T means best_arm rewards t →
      (stdUcbList K T (stdRun K T means best_arm rewards t)).getD j ⊤ <
        (stdUcbList K T (stdRun K T means best_arm rewards t)).getD
          (stdArm K T means best_arm rewards t) ⊤) := by
  have hne : stdUcbList K T (stdRun K T means best_arm rewards t) ≠ [] := by
    apply List.ne_nil_of_length_pos
    rw [stdUcbList_length]
    omega
  refine ⟨?_, ?_, rfl, stdArm_lt K T means best_arm rewards hK t, ?_, ?_⟩
  · intro a ha h0
    unfold stdUcbList
    rw [getD_range_map _ _ _ _ ha, if_pos h0]
  · intro a ha h0
    unfold stdUcbList
    rw [getD_range_map _ _ _ _ ha, if_neg h0]
  · intro j hj
    exact npArgmax_is_max _ hne ⊤ j (by rw [stdUcbList_length]; omega)
  · intro j hj
    exact npArgmax_first _ hne ⊤ j hj

/-- Witness for C4 at `K = 1`, `T = 2`, round `0`. -/
theorem standard_index_stable_argmax_witness :
    stdArm 1 2 (fun _ => 0) 0 (fun _ => 0) 0 < 1 :=
  (standard_index_stable_argmax 1 2 (fun _ => 0) 0 (fun _ => 0)
    (by norm_num) 0).2.2.2.1

/-- Claim C5: `known_variance_ucb` shares the control flow of
`standard_ucb` (infinity sentinel, stable argmax, incremental mean update,
regret accumulation) — with all true variances fixed at `1` the two runs
coincide on every round and so do the returned regret traces — and differs
only in the pulled-arm index, which is
`emp_means[a] + sqrt(4*variances[a]*ln T / counts[a])` with the true
variance of the `ProblemInstance`. -/
theorem known_index_true_variance (K T : ℕ) (means variances : ℕ → ℝ)
    (best_arm : ℕ) (rewards : ℕ → ℝ) :
    (∀ t a, a < K →
      (knownRun K T means variances best_arm rewards t).counts a = 0 →
      (knownUcbList K T variances
        (knownRun K T means variances best_arm rewards t)).getD a ⊤ = ⊤) ∧
    (∀ t a, a < K →
      (knownRun K T means variances best_arm rewards t).counts a ≠ 0 →
      (knownUcbList K T variances
        (knownRun K T means variances best_arm rewards t)).getD a ⊤ =
        (((knownRun K T means variances best_arm rewards t).emp_means a +
          Real.sqrt ((4 * variances a * Real.log T) /
            ((knownRun K T means variances best_arm rewards t).counts a)) : ℝ) :
              WithTop ℝ)) ∧
    (∀ t, knownRun K T means (fun _ => 1) best_arm rewards t =
      stdRun K T means best_arm rewards t) ∧
    knownRegretTrace K T means (fun _ => 1) best_arm rewards =
      stdRegretTrace K T means best_arm rewards := by
  refine ⟨?_, ?_, knownRun_one K T means best_arm rewards, ?_⟩
  · intro t a ha h0
    unfold knownUcbList
    rw [getD_range_map _ _ _ _ ha, if_pos h0]
  · intro t a ha h0
    unfold knownUcbList
    rw [getD_range_map _ _ _ _ ha, if_neg h0]
  · unfold knownRegretTrace stdRegretTrace
    apply List.map_congr_left
    intro t _
    rw [knownRun_one]

/-- Witness for C5 at `K = 1`, `T = 1`: trace equality at unit variances. -/
theorem known_index_true_variance_witness :
    knownRegretTrace 1 1 (fun _ => 0) (fun _ => 1) 0 (fun _ => 0) =
      stdRegretTrace 1 1 (fun _ => 0) 0 (fun _ => 0) :=
  (known_index_true_variance 1 1 (fun _ => 0) (fun _ => 1) 0 (fun _ => 0)).2.2.2

/-- Claim C6: for every `1 ≤ K ≤ T` and each of the three policies, round
`t` of the first `K` rounds pulls arm `t - 1` (stated as: the arm of round
`t + 1` is `t` for `t < K`), so after `t ≤ K` rounds the arms below `t`
have been pulled exactly once and the rest not at all — every arm is pulled
once, in ascending index order, before any arm is pulled twice.  This rests
on the `+∞` sentinel for zero-count arms and first-maximum tie-breaking. -/
theorem bootstrap_pulls_in_index_order (K T : ℕ) (means variances : ℕ → ℝ)
    (best_arm : ℕ) (rewards : ℕ → ℝ) (hK : 1 ≤ K) (hKT : K ≤ T) :
    ((∀ t, t < K → knownArm K T means variances best_arm rewards t = t) ∧
     (∀ t, t ≤ K → ∀ a,
       (knownRun K T means variances best_arm rewards t).counts a =
         if a < t then 1 else 0)) ∧
    ((∀ t, t < K → unknownArm K T means best_arm rewards t = t) ∧
     (∀ t, t ≤ K → ∀ a,
       (unknownRun K T means best_arm rewards t).counts a =
         if a < t then 1 else 0)) ∧
    ((∀ t, t < K → stdArm K T means best_arm rewards t = t) ∧
     (∀ t, t ≤ K → ∀ a,
       (stdRun K T means best_arm rewards t).counts a =
         if a < t then 1 else 0)) :=
  ⟨⟨fun t ht => known_bootstrap_arm K T means variances best_arm rewards hK t ht,
    fun t ht => known_bootstrap K T means variances best_arm rewards hK t ht⟩,
   ⟨fun t ht => unknown_bootstrap_arm K T means best_arm rewards hK t ht,
    fun t ht => unknown_bootstrap K T means best_arm rewards hK t ht⟩,
   ⟨fun t ht => std_bootstrap_arm K T means best_arm rewards hK t ht,
    fun t ht => std_bootstrap K T means best_arm rewards hK t ht⟩⟩

/-- Witness for C6 at `K = 1`, `T = 1`: the first round pulls arm 0. -/
theorem bootstrap_pulls_in_index_order_witness :
    stdArm 1 1 (fun _ => 0) 0 (fun _ => 0) 0 = 0 :=
  (bootstrap_pulls_in_index_order 1 1 (fun _ => 0) (fun _ => 1) 0 (fun _ => 0)
    (by norm_num) (by norm_num)).2.2.1 0 (by norm_num)

/-- Claim C7: for each policy, the regret trace is a function of the
chosen-arm sequence only, never of the sampled reward values: two runs on
the same instance whose reward streams differ but whose per-round chosen
arms coincide yield identical regret traces, and each round adds exactly
`means[best_arm] - means[chosen_arm]`. -/
theorem regret_function_of_chosen_arms (K T : ℕ) (means variances : ℕ → ℝ)
    (best_arm : ℕ) (rw1 rw2 : ℕ → ℝ) :
    ((∀ t, t < T → knownArm K T means variances best_arm rw1 t =
        knownArm K T means variances best_arm rw2 t) →
      knownRegretTrace K T means variances best_arm rw1 =
        knownRegretTrace K T means variances best_arm rw2) ∧
    (∀ t, (knownRun K T means variances best_arm rw1 (t + 1)).regret =
      (knownRun K T means variances best_arm rw1 t).regret +
        (means best_arm - means (knownArm K T means variances best_arm rw1 t))) ∧
    ((∀ t, t < T → unknownArm K T means best_arm rw1 t =
        unknownArm K T means best_arm rw2 t) →
      unknownRegretTrace K T means best_arm rw1 =
        unknownRegretTrace K T means best_arm rw2) ∧
    (∀ t, (unknownRun K T means best_arm rw1 (t + 1)).regret =
      (unknownRun K T means best_arm rw1 t).regret +
        (means best_arm - means (unknownArm K T means best_arm rw1 t))) ∧
    ((∀ t, t < T → stdArm K T means best_arm rw1 t =
        stdArm K T means best_arm rw2 t) →
      stdRegretTrace K T means best_arm rw1 =
        stdRegretTrace K T means best_arm rw2) ∧
    (∀ t, (stdRun K T means best_arm rw1 (t + 1)).regret =
      (stdRun K T means best_arm rw1 t).regret +
        (means best_arm - means (stdArm K T means best_arm rw1 t))) := by
  refine ⟨?_, fun t => rfl, ?_, fun t => rfl, ?_, fun t => rfl⟩
  · intro h
    unfold knownRegretTrace
    apply List.map_congr_left
    intro t hmem
    exact knownRun_regret_of_arms_eq K T means variances best_arm rw1 rw2 h t
      (by have := List.mem_range.mp hmem; omega)
  · intro h
    unfold unknownRegretTrace
    apply List.map_congr_left
    intro t hmem
    exact unknownRun_regret_of_arms_eq K T means best_arm rw1 rw2 h t
      (by have := List.mem_range.mp hmem; omega)
  · intro h
    unfold stdRegretTrace
    apply List.map_congr_left
    intro t hmem
    exact stdRun_regret_of_arms_eq K T means best_arm rw1 rw2 h t
      (by have := List.mem_range.mp hmem; omega)

/-- Witness for C7: coinciding arm choices (identical reward streams) give
the identical trace. -/
theorem regret_function_of_chosen_arms_witness :
    stdRegretTrace 1 1 (fun _ => 0) 0 (fun _ => 0) =
      stdRegretTrace 1 1 (fun _ => 0) 0 (fun _ => 0) :=
  (regret_function_of_chosen_arms 1 1 (fun _ => 0) (fun _ => 1) 0
    (fun _ => 0) (fun _ => 0)).2.2.2.2.1 (fun _ _ => rfl)

/-- Claim C2: in `unknown_variance_ucb`, `empirical_variance` starts at 1
and stays 1 while the arm's pull count is at most 1; each pull applies the
Welford update (post-increment count `n`, `delta` against the pre-update
mean, mean update, `M2 += delta * (r - new mean)`, and
`emp_vars = M2 / (n - 1)` exactly when `n > 1`); consequently after any
reward sequence the estimate for an arm equals the unbiased sample variance
of the rewards that arm received. -/
theorem unknown_welford_sample_variance (K T : ℕ) (means : ℕ → ℝ)
    (best_arm : ℕ) (rewards : ℕ → ℝ) (a : ℕ) :
    ((unknownRun K T means best_arm rewards 0).emp_vars a = 1) ∧
    (∀ t, (unknownRun K T means best_arm rewards t).counts a ≤ 1 →
      (unknownRun K T means best_arm rewards t).emp_vars a = 1) ∧
    (∀ t, armProj (unknownRun K T means best_arm rewards (t + 1)) a =
      if unknownArm K T means best_arm rewards t = a
      then armUpdate (armProj (unknownRun K T means best_arm rewards t) a)
        (rewards (t + 1))
      else armProj (unknownRun K T means best_arm rewards t) a) ∧
    (∀ s r, (armUpdate s r).count = s.count + 1 ∧
      (armUpdate s r).mean = s.mean + (r - s.mean) / ((s.count + 1 : ℕ) : ℝ) ∧
      (armUpdate s r).M2 = s.M2 + (r - s.mean) * (r - (armUpdate s r).mean) ∧
      (1 < s.count + 1 → (armUpdate s r).var =
        (armUpdate s r).M2 / (((s.count + 1 : ℕ) : ℝ) - 1)) ∧
      (s.count + 1 ≤ 1 → (armUpdate s r).var = s.var)) ∧
    (∀ t, (unknownRun K T means best_arm rewards t).counts a =
      (armRewards K T means best_arm rewards t a).length) ∧
    (∀ t, 2 ≤ (armRewards K T means best_arm rewards t a).length →
      (unknownRun K T means best_arm rewards t).emp_vars a =
        sampleVariance (armRewards K T means best_arm rewards t a)) := by
  refine ⟨rfl, ?_, fun t => armProj_run_succ K T means best_arm rewards t a,
    ?_, fun t => unknown_counts_eq_armRewards_length K T means best_arm rewards t a,
    ?_⟩
  · intro t hc
    have hv := congrArg ArmStat.var (armProj_run K T means best_arm rewards a t)
    rw [unknown_counts_eq_armRewards_length K T means best_arm rewards t a] at hc
    rw [foldl_armUpdate_var, if_pos hc] at hv
    exact hv
  · intro s r
    refine ⟨rfl, rfl, rfl, ?_, ?_⟩
    · intro h
      rw [armUpdate_var_def, if_pos h]
    · intro h
      rw [armUpdate_var_def, if_neg (by omega)]
  · intro t h2
    have hv := congrArg ArmStat.var (armProj_run K T means best_arm rewards a t)
    have hne : armRewards K T means best_arm rewards t a ≠ [] := by
      intro e
      rw [e] at h2
      simp at h2
    rw [foldl_armUpdate_var, if_neg (by omega),
      welford_M2_centered _ hne] at hv
    exact hv

/-- Witness for C2: after zero rounds the estimate of arm 0 sits at the
prior 1 because its pull count is still at most 1. -/
theorem unknown_welford_sample_variance_witness :
    (unknownRun 1 1 (fun _ => 0) 0 (fun _ => 0) 0).emp_vars 0 = 1 :=
  (unknown_welford_sample_variance 1 1 (fun _ => 0) 0 (fun _ => 0) 0).2.1 0
    (Nat.zero_le 1)

/-- Claim C10: in `unknown_variance_ucb`, each `M2` increment equals
`delta² * (1 - 1/n) ≥ 0`, so `M2[a] ≥ 0` and `empirical_variance[a] ≥ 0`
after every round, and `sqrt(emp_vars[a])` in the index never sees a
negative argument. -/
theorem unknown_M2_variance_nonneg (K T : ℕ) (means : ℕ → ℝ)
    (best_arm : ℕ) (rewards : ℕ → ℝ) (a : ℕ) :
    (∀ s r, (armUpdate s r).M2 =
        s.M2 + (r - s.mean) ^ 2 * (1 - 1 / ((s.count + 1 : ℕ) : ℝ)) ∧
      0 ≤ (r - s.mean) ^ 2 * (1 - 1 / ((s.count + 1 : ℕ) : ℝ))) ∧
    (∀ t, 0 ≤ (unknownRun K T means best_arm rewards t).M2 a ∧
      0 ≤ (unknownRun K T means best_arm rewards t).emp_vars a) :=
  ⟨fun s r => ⟨armUpdate_M2_increment s r, armUpdate_increment_nonneg s r⟩,
   unknown_M2_vars_nonneg K T means best_arm rewards a⟩

/-- Claim C9: an invalid arm count `K ≤ 0` makes the program error during
instance generation (the `np.argmax` of the then-empty means list raises),
before any trial runs, so neither a problem instance nor trials are
produced; an unrecognized variance-regime selector is rejected by the
argument parser immediately.  In both cases the pipeline yields an error
and never the result tuple. -/
theorem config_error_before_simulation (K : ℤ) (var : String)
    (meansDraw varsDraw : ℕ → ℝ) (rwK rwU rwS : ℕ → ℕ → ℝ) :
    (K ≤ 0 → generateInstance K meansDraw varsDraw =
      .error "attempt to get argmax of an empty sequence") ∧
    (K ≤ 0 → ∃ msg, runProgram K var meansDraw varsDraw rwK rwU rwS =
      .error msg) ∧
    (var ≠ "low" → var ≠ "medium" → var ≠ "high" →
      parseArgs K var = .error "argument --var: invalid choice" ∧
      runProgram K var meansDraw varsDraw rwK rwU rwS =
        .error "argument --var: invalid choice") := by
  have hgen : K ≤ 0 → generateInstance K meansDraw varsDraw =
      .error "attempt to get argmax of an empty sequence" := by
    intro h
    have h0 : K.toNat = 0 := Int.toNat_eq_zero.mpr h
    simp [generateInstance, h0, npArgmaxE]
  refine ⟨hgen, ?_, ?_⟩
  · intro h
    rcases hpv : varianceLevels var with _ | ⟨vmin, vmax⟩
    · refine ⟨"argument --var: invalid choice", ?_⟩
      have hparse : parseArgs K var =
          Except.error "argument --var: invalid choice" := by
        unfold parseArgs
        rw [hpv]
      unfold runProgram
      rw [hparse]
      rfl
    · refine ⟨"attempt to get argmax of an empty sequence", ?_⟩
      have hparse : parseArgs K var = Except.ok (K, vmin, vmax) := by
        unfold parseArgs
        rw [hpv]
      unfold runProgram
      rw [hparse, hgen h]
      rfl
  · intro h1 h2 h3
    have hpv : varianceLevels var = none := by
      unfold varianceLevels
      rw [if_neg h1, if_neg h2, if_neg h3]
    have hparse : parseArgs K var =
        Except.error "argument --var: invalid choice" := by
      unfold parseArgs
      rw [hpv]
    refine ⟨hparse, ?_⟩
    unfold runProgram
    rw [hparse]
    rfl

/-- Witness for C9 at `K = 0`: instance generation already fails. -/
theorem config_error_before_simulation_witness :
    generateInstance 0 (fun _ => 0) (fun _ => 0) =
      .error "attempt to get argmax of an empty sequence" :=
  (config_error_before_simulation 0 "bad" (fun _ => 0) (fun _ => 0)
    (fun _ _ => 0) (fun _ _ => 0) (fun _ _ => 0)).1 le_rfl

end Experiment3
